import Mathlib

/-!
Verification of the spec-list expansion and concretization layer
(`lib/spack/spack/spec_list.py`).

The Python module is embedded shallowly:
* YAML values (the raw declared list) become the inductive `Yaml`;
* the external `Spec` collaborator (spec parsing, `satisfies`, `constrain`,
  `concretized`, `name`, `==`) is kept opaque: every operation on it is a
  field of the bundle `SpecAPI`, and theorems quantify over the bundle.
  A small executable instance (`MSpec`, `mAPI`) is used for concrete
  witnesses and counterexamples;
* Python exceptions become the `Except PyErr` monad.  An access to a name
  that is not defined anywhere in scope (several occur in the module) is a
  `NameError` at run time and is embedded as `PyErr.nameError`;
* in-place mutation of objects held by the caches (`constrain` mutates the
  spec it is called on, `list.remove` mutates the cached constraint lists)
  is embedded by returning the updated cache contents alongside the result,
  exactly mirroring which cached structures each Python statement reaches.
-/

/-- Python exceptions raised or propagated by the module.  `nameError id`
is the `NameError` produced by reading the undefined name `id`;
`invalidDependency` and `unknownVariant` are the two structured concretizer
errors (`spack.spec.InvalidDependencyError`, `spack.variant.UnknownVariantError`);
`otherError` stands for any other exception class coming out of the
collaborator. -/
inductive PyErr where
  | nameError (ident : String)
  | valueError (msg : String)
  | attributeError (msg : String)
  | keyError (key : String)
  | typeError (msg : String)
  | indexError (msg : String)
  | invalidSpecConstraint (msg : String)
  | undefinedReference (msg : String)
  | invalidDependency (message : String)
  | unknownVariant (message : String)
  | otherError (kind : String) (message : String)
deriving DecidableEq, Repr

/-- Parsed YAML values as the module consumes them: strings, sequences and
mappings (a mapping is an association list of string keys). -/
inductive Yaml where
  | s (v : String)
  | l (items : List Yaml)
  | m (pairs : List (String × Yaml))

/-- First value bound to `k` in a mapping (`item['matrix']`, `item.get('exclude')`). -/
def yamlLookup (k : String) : List (String × Yaml) → Option Yaml
  | [] => none
  | (k2, v) :: rest => if k2 = k then some v else yamlLookup k rest

/-- A YAML sequence of strings, as iterated by the module (matrix axes and
`exclude` entries are sequences of spec strings per the declared-list
grammar; other shapes cannot occur in a well-formed declaration). -/
def strListOf : Yaml → List String
  | .l items => items.filterMap (fun | .s v => some v | _ => none)
  | _ => []

/-- The axes of a matrix value: a sequence of sequences of strings. -/
def axesOf : Yaml → List (List String)
  | .l axes => axes.map strListOf
  | _ => []

/-- Embeds Python `s.startswith(pre)`.  (Defined over the character list so
that closed instances reduce inside the kernel.) -/
def pyStarts (s pre : String) : Bool :=
  pre.data.isPrefixOf s.data

/-- Embeds Python `sub in s` (substring containment, as used by
`e.message.index`). -/
def pyHasSub (s sub : String) : Bool :=
  go sub.data s.data
where
  /-- Containment of one character list in another. -/
  go (sub : List Char) : List Char → Bool
    | [] => sub.isEmpty
    | c :: rest => sub.isPrefixOf (c :: rest) || go sub rest

/-- Embeds `spec_ordering_key` (lines 13-23): canonical merge priority of a
constraint-fragment string, decided by its syntactic prefix. -/
def spec_ordering_key (s : String) : Nat :=
  if pyStarts s "^" then 5
  else if pyStarts s "/" then 4
  else if pyStarts s "%" then 3
  else if pyStarts s "~" || pyStarts s "-" || pyStarts s "+" ||
          pyStarts s "@" || s.data.contains '=' then 2
  else 1

/-- Embeds `sorted(combo, key=spec_ordering_key)`.  Python's `sorted` is a
stable sort by the key; since `spec_ordering_key` only takes the values
1..5, the stable sort is exactly the concatenation of the key-classes in
increasing key order, each class keeping the input order. -/
def pySorted (key : String → Nat) (l : List String) : List String :=
  (l.filter (fun x => key x == 1)) ++ (l.filter (fun x => key x == 2)) ++
  (l.filter (fun x => key x == 3)) ++ (l.filter (fun x => key x == 4)) ++
  (l.filter (fun x => key x == 5))

/-- Embeds `itertools.product(*axes)`: cartesian product of the axes in
axis order, axis 0 varying slowest. -/
def pyProduct : List (List String) → List (List String)
  | [] => [[]]
  | ax :: rest => ax.flatMap (fun x => (pyProduct rest).map (fun combo => x :: combo))

/-- The external `Spec` collaborator (out of scope for this module, see the
imports on line 8): constructible from a string, with `name` (empty string
for an anonymous constraint fragment), `satisfies`, in-place `constrain`
(embedded as returning the updated value; may fail on an irreconcilable
conflict) and `concretized`. -/
structure SpecAPI (Spec : Type) where
  parse : String → Spec
  name : Spec → String
  satisfies : Spec → Spec → Bool
  constrain : Spec → Spec → Except PyErr Spec
  concretized : Spec → Except PyErr Spec

/-- Reference tables map a list name to the referenced `SpecList`'s
`specs_as_yaml_list`.  The Python attribute `_reference` maps names to
whole `SpecList` objects and line 171 reads exactly this property of the
referenced object; the embedding records directly the value that read
produces. -/
def RefTable : Type := String → Option (List Yaml)

/-- The name of the referenced list when a YAML item is a reference marker
(a string starting with `$`, lines 167-168). -/
def markerNameOf : Yaml → Option String
  | .s v => if pyStarts v "$" then some (v.drop 1) else none
  | _ => none

mutual

/-- Embeds `_expand_references` (lines 164-187) on one YAML value.  A
non-list, non-dict value (i.e. a string, markers included) is returned
unchanged (lines 185-187); a dict keeps its keys and expands its values
(lines 181-184); a list is handled by `expandList`. -/
def expandRefs (ref : RefTable) (lname : String) : Yaml → Except PyErr Yaml
  | .s v => .ok (.s v)
  | .m pairs => do .ok (.m (← expandPairs ref lname pairs))
  | .l items => do .ok (.l (← expandList ref lname items))
termination_by structural y => y

/-- Embeds the list branch of `_expand_references` (lines 165-180): scan
for the first top-level reference marker; if its name resolves, splice the
referenced list's already-expanded elements in place, expanding the
items before the marker and after it element-by-element; if it does not
resolve, the code executes `raise InvalidReferenceError(msg)` (line 178)
and `InvalidReferenceError` is not defined anywhere in the module (the
class defined at line 196 is `UndefinedReferenceError`), so the statement
raises `NameError`.  If the list holds no top-level marker, every item is
expanded element-by-element (line 180).

The Python code scans the whole list for the marker before expanding any
element, while this recursion expands the non-marker items it passes on
the way to the marker.  The two are observationally equal: the only error
an element expansion can produce is the very same
`nameError "InvalidReferenceError"` value, so the outcome (value or error)
is identical either way. -/
def expandList (ref : RefTable) (lname : String) : List Yaml → Except PyErr (List Yaml)
  | [] => .ok []
  | item :: rest =>
    match markerNameOf item with
    | some name =>
      match ref name with
      | some expansion => do .ok (expansion ++ (← expandEach ref lname rest))
      | none => .error (.nameError "InvalidReferenceError")
    | none => do .ok ((← expandRefs ref lname item) :: (← expandList ref lname rest))
termination_by structural l => l

/-- Element-by-element expansion, as applied to the items after the first
marker of a list (lines 172-173): each item is expanded on its own via
`_expand_references`, so a string item — even one that is itself a
reference marker — comes back unchanged. -/
def expandEach (ref : RefTable) (lname : String) : List Yaml → Except PyErr (List Yaml)
  | [] => .ok []
  | item :: rest => do .ok ((← expandRefs ref lname item) :: (← expandEach ref lname rest))
termination_by structural l => l

/-- Expansion of the values of a mapping, keys untouched (lines 181-184). -/
def expandPairs (ref : RefTable) (lname : String) :
    List (String × Yaml) → Except PyErr (List (String × Yaml))
  | [] => .ok []
  | (k, v) :: rest => do .ok ((k, (← expandRefs ref lname v)) :: (← expandPairs ref lname rest))
termination_by structural l => l

end

/-- The `exclude` entries of a matrix mapping (`item.get('exclude', [])`,
line 53). -/
def excludesOf (pairs : List (String × Yaml)) : List String :=
  match yamlLookup "exclude" pairs with
  | some y => strListOf y
  | none => []

/-- Embeds the body of `specs_as_constraints` for one expanded item
(lines 51-64).  A dict is a matrix block: iterate the cartesian product of
its axes, sort each combination with `spec_ordering_key`, parse the
space-joined sorted combination into a probe spec, drop the combination
when the probe satisfies any `exclude` entry, and otherwise emit the
sorted fragments parsed individually.  A missing `matrix` key would be a
`KeyError` (line 54); a top-level sequence item would make `Spec(item)`
fail (line 64), which cannot happen for a well-formed declaration.  Any
other item is a single-fragment constraint list. -/
def constraintsOfItem {Spec : Type} (api : SpecAPI Spec) : Yaml → Except PyErr (List (List Spec))
  | .m pairs =>
    let excludes := excludesOf pairs
    match yamlLookup "matrix" pairs with
    | none => .error (.keyError "matrix")
    | some y =>
      .ok ((pyProduct (axesOf y)).filterMap (fun combo =>
        let ordered := pySorted spec_ordering_key combo
        let test := api.parse (String.intercalate " " ordered)
        if excludes.any (fun x => api.satisfies test (api.parse x)) then none
        else some (ordered.map api.parse)))
  | .s v => .ok [[api.parse v]]
  | .l _ => .error (.typeError "Spec of a list")

/-- Embeds the loop of `specs_as_constraints` (lines 50-65): the ordered
constraint lists of every expanded item, in item order. -/
def constraintsFromYaml {Spec : Type} (api : SpecAPI Spec) :
    List Yaml → Except PyErr (List (List Spec))
  | [] => .ok []
  | item :: rest => do .ok ((← constraintsOfItem api item) ++ (← constraintsFromYaml api rest))

/-- Embeds the merge of one constraint list inside `specs` (lines 76-79):
start from `constraint_list[0]` (an `IndexError` when the list is empty)
and fold the remaining fragments in order with `constrain`. -/
def mergeConstraintList {Spec : Type} (api : SpecAPI Spec) : List Spec → Except PyErr Spec
  | [] => .error (.indexError "list index out of range")
  | first :: rest => rest.foldlM api.constrain first

/-- The loop of `specs` (lines 75-79): merge every constraint list, in
order. -/
def mergeAll {Spec : Type} (api : SpecAPI Spec) : List (List Spec) → Except PyErr (List Spec)
  | [] => .ok []
  | cl :: rest => do .ok ((← mergeConstraintList api cl) :: (← mergeAll api rest))

/-- Embeds the body of `specs` (lines 72-80) together with its effect on
the Tier-2 cache: `spec = constraint_list[0]` aliases the first fragment
of the cached constraint list and `constrain` mutates it in place, so
after the computation the cached list's slot 0 holds the merged object.
The merged specs are returned together with the constraint lists as they
are left in the cache (head replaced by the merged object, the other
fragments untouched). -/
def specsFromConstraints {Spec : Type} (api : SpecAPI Spec) (lists : List (List Spec)) :
    Except PyErr (List Spec × List (List Spec)) := do
  let merged ← mergeAll api lists
  .ok (merged, List.zipWith (fun m l => m :: l.drop 1) merged lists)

/-- Embeds `constraint_list.remove(root_spec[0])` (line 96): drop the
first element equal to the given one.  (`list.remove` raises `ValueError`
when no element matches; the call site always passes an element of the
list.) -/
def removeFirst {Spec : Type} [DecidableEq Spec] (x : Spec) : List Spec → List Spec
  | [] => []
  | y :: ys => if y = x then ys else y :: removeFirst x ys

/-- The fragments the retry loop re-applies in one attempt (lines
102-104): every fragment of the list that is not in `invalid_constraints`.
A fragment marked invalid is never constrained again. -/
def appliedFragments {Spec : Type} [DecidableEq Spec] (cl invalid : List Spec) : List Spec :=
  cl.filter (fun c => !(invalid.contains c))

/-- One attempt of the retry loop (lines 100-104): constrain every
not-yet-invalid fragment into the root, in list order.  The `constrain`
calls sit outside the `try`, so a conflict error propagates. -/
def appliedSpec {Spec : Type} [DecidableEq Spec] (api : SpecAPI Spec)
    (root : Spec) (cl invalid : List Spec) : Except PyErr Spec :=
  (appliedFragments cl invalid).foldlM api.constrain root

/-- Outcome of one iteration of the `while True` loop (lines 99-127):
`done` is the `break` with the concrete spec appended, `fail` is an
exception leaving the loop, and `next` would be reaching
`invalid_constraints.extend(...)` and looping again — carrying the root as
mutated by this iteration's `constrain` calls (`s = root_spec[0]` re-reads
the object in place) and the grown invalid set. -/
inductive StepOut (Spec : Type) where
  | done (conc : Spec)
  | fail (e : PyErr)
  | next (root : Spec) (invalid : List Spec)

/-- Embeds one iteration of the retry loop (lines 100-127).

* Lines 101-104: fold `constrain` over the non-invalid fragments.
* Line 106: `concretized()`; on success the concrete spec is appended and
  the loop breaks.
* Lines 108-119 (`except InvalidDependencyError`): line 109 runs
  `e.message.index('depend on ')`, a `ValueError` when the substring is
  absent; otherwise line 112 reads `invalid_depstring`, a name never bound
  anywhere (line 111 binds `invalid_deps_string`), so the handler raises
  `NameError` (lines 114 `constraints` and 117 `invalid_deps_strings` are
  equally unbound, but the first read wins).  The original error is never
  re-raised and `invalid_constraints` is never extended.
* Lines 120-127 (`except UnknownVariantError`): line 121 reads `re`,
  which the module never imports, so the handler raises `NameError`
  (lines 122 `constraints` and 125 `invalid_dpes` are equally unbound).
* Any other exception from `concretized` propagates unchanged. -/
def attemptStep {Spec : Type} [DecidableEq Spec] (api : SpecAPI Spec)
    (root : Spec) (cl invalid : List Spec) : StepOut Spec :=
  match appliedSpec api root cl invalid with
  | .error e => .fail e
  | .ok s =>
    match api.concretized s with
    | .ok conc => .done conc
    | .error (.invalidDependency msg) =>
      if !(pyHasSub msg "depend on ") then
        .fail (.valueError "substring not found")
      else
        .fail (.nameError "invalid_depstring")
    | .error (.unknownVariant _) => .fail (.nameError "re")
    | .error e => .fail e

/-- Embeds the `while True` loop (lines 99-127) with explicit fuel: each
unit of fuel is one iteration.  The fuel-exhausted value is an artifact of
the embedding; the termination theorem below shows the result is the same
for every positive fuel, i.e. the loop never makes a second attempt. -/
def concretizeLoop {Spec : Type} [DecidableEq Spec] (api : SpecAPI Spec)
    (cl : List Spec) : Spec → List Spec → Nat → Except PyErr Spec
  | _, _, 0 => .error (.otherError "fuel" "loop fuel exhausted")
  | root, invalid, fuel + 1 =>
    match attemptStep api root cl invalid with
    | .done conc => .ok conc
    | .fail e => .error e
    | .next root2 invalid2 => concretizeLoop api cl root2 invalid2 fuel

/-- Embeds the loop over constraint lists in `concrete_specs` (lines
88-127), returning the concrete specs together with the constraint lists
as the processing leaves them in the cache (line 96 removes the root
fragment from each cached list in place).

`root_spec = [s for s in constraint_list if s.name]` (line 90): the
fragments with a truthy (non-empty) name.  When their count is not one,
line 92 reads `s`: under the module's Python 2 semantics (it uses
`basestring`) the comprehension variable leaks, so `s` is the last element
of the current constraint list; for an empty first constraint list `s` was
never bound and line 92 raises `NameError`.  The `lastS` argument threads
that leaked binding.  (After a successful list the Python variable `s` is
additionally rebound at line 101 to that list's applied root; the
difference is observable only in the error message built for a later
empty constraint list and is not tracked.)  Otherwise the root is removed
from the cached list (line 96) and the retry loop runs with an initially
empty invalid set (lines 98-127).

`nextLastS` is the update of the leaked binding when entering a list:
the comprehension rebinds `s` element by element, leaving the last element
of a nonempty list and the previous binding for an empty one. -/
def nextLastS {Spec : Type} (cl : List Spec) (lastS : Option Spec) : Option Spec :=
  match cl.getLast? with
  | some x => some x
  | none => lastS

/-- Embeds the loop over constraint lists in `concrete_specs`; see the
doc comment on `nextLastS` above for the full line mapping. -/
def concreteFromConstraints {Spec : Type} [DecidableEq Spec] (api : SpecAPI Spec)
    (fuel : Nat) : List (List Spec) → Option Spec → Except PyErr (List Spec × List (List Spec))
  | [], _ => .ok ([], [])
  | cl :: rest, lastS =>
    let lastS2 := nextLastS cl lastS
    match cl.filter (fun c => api.name c != "") with
    | [root] =>
      let cl2 := removeFirst root cl
      match concretizeLoop api cl2 root [] fuel with
      | .error e => .error e
      | .ok conc => do
        let (cs, mls) ← concreteFromConstraints api fuel rest lastS2
        .ok (conc :: cs, cl2 :: mls)
    | _ =>
      match lastS2 with
      | some s0 =>
        .error (.invalidSpecConstraint
          ("Spec " ++ api.name s0 ++ " is not a valid concretization target" ++
           "all specs must have a single name constraint for concretization."))
      | none => .error (.nameError "s")

/-- Embeds the `SpecList` object state (lines 27-38): the list name, the
borrowed reference table, the raw element list, and the four cache slots,
all `None` after construction. -/
structure SpecList (Spec : Type) where
  name : String
  reference : RefTable
  rawList : List Yaml
  expanded : Option (List Yaml)
  constraints : Option (List (List Spec))
  specsCache : Option (List Spec)
  concreteCache : Option (List Spec)

/-- Embeds `__init__` (lines 27-38): copy the raw list, borrow the
reference table, leave every cache slot `None`. -/
def mkSpecList {Spec : Type} (name : String) (yaml_list : List Yaml)
    (reference : RefTable) : SpecList Spec :=
  { name := name, reference := reference, rawList := yaml_list,
    expanded := none, constraints := none, specsCache := none, concreteCache := none }

/-- Embeds the property `specs_as_yaml_list` (lines 41-45): return the
Tier-1 cache, computing it from the raw list by reference expansion when
it is `None`.  The state after the read is returned alongside. -/
def specs_as_yaml_list {Spec : Type} (ls : SpecList Spec) :
    Except PyErr (List Yaml × SpecList Spec) :=
  match ls.expanded with
  | some e => .ok (e, ls)
  | none => do
    let e ← expandList ls.reference ls.name ls.rawList
    .ok (e, { ls with expanded := some e })

/-- Embeds the property `specs_as_constraints` (lines 47-67): return the
Tier-2 cache, computing it from the Tier-1 view when it is `None`. -/
def specs_as_constraints {Spec : Type} (api : SpecAPI Spec) (ls : SpecList Spec) :
    Except PyErr (List (List Spec) × SpecList Spec) :=
  match ls.constraints with
  | some c => .ok (c, ls)
  | none => do
    let (e, ls1) ← specs_as_yaml_list ls
    let cs ← constraintsFromYaml api e
    .ok (cs, { ls1 with constraints := some cs })

/-- Embeds the property `specs` (lines 69-82): return the Tier-3 cache,
computing it from the Tier-2 view when it is `None`.  Because the merge
mutates the first fragment of each cached constraint list in place, the
Tier-2 cache of the returned state holds the mutated lists. -/
def specsView {Spec : Type} (api : SpecAPI Spec) (ls : SpecList Spec) :
    Except PyErr (List Spec × SpecList Spec) :=
  match ls.specsCache with
  | some s => .ok (s, ls)
  | none => do
    let (cls, ls1) ← specs_as_constraints api ls
    let (merged, mutated) ← specsFromConstraints api cls
    .ok (merged, { ls1 with constraints := some mutated, specsCache := some merged })

/-- Embeds the property `concrete_specs` (lines 84-130): return the Tier-4
cache, computing it from the Tier-2 view when it is `None`.  The root
removal of line 96 mutates the cached constraint lists in place, so the
Tier-2 cache of the returned state holds the root-less lists.  `fuel`
bounds the `while True` loop iterations of each list (see
`concretizeLoop`). -/
def concrete_specsView {Spec : Type} [DecidableEq Spec] (api : SpecAPI Spec) (fuel : Nat)
    (ls : SpecList Spec) : Except PyErr (List Spec × SpecList Spec) :=
  match ls.concreteCache with
  | some c => .ok (c, ls)
  | none => do
    let (cls, ls1) ← specs_as_constraints api ls
    let (concs, mutated) ← concreteFromConstraints api fuel cls none
    .ok (concs, { ls1 with constraints := some mutated, concreteCache := some concs })

/-- Embeds `add` (lines 132-141).  Line 133 appends the rendered string to
the raw list; line 136 runs `self._expanded_list.append(str(spec))` — when
the Tier-1 slot still holds the `None` sentinel set at construction this
is `None.append` and raises `AttributeError` (after the raw list was
already extended); otherwise the string is appended to the Tier-1 cache
and the Tier-2..4 caches are cleared (lines 139-141). -/
def add {Spec : Type} (ls : SpecList Spec) (spec : String) :
    Except PyErr (SpecList Spec) :=
  match ls.expanded with
  | none => .error (.attributeError "NoneType object has no attribute append")
  | some e =>
    .ok { ls with rawList := ls.rawList ++ [.s spec],
                  expanded := some (e ++ [.s spec]),
                  constraints := none, specsCache := none, concreteCache := none }

/-- A small executable model of the external `Spec` collaborator, used for
concrete witnesses and counterexamples: a spec is the list of fragment
strings folded into it plus a concreteness flag. -/
structure MSpec where
  parts : List String
  isConcrete : Bool
deriving DecidableEq, Repr

/-- Model parse: a single-fragment abstract spec. -/
def mparse (s : String) : MSpec := ⟨[s], false⟩

/-- Model name: the first fragment that is a bare package name (ordering
key 1); the empty string when there is none (an anonymous fragment). -/
def mname (s : MSpec) : String :=
  match s.parts.filter (fun p => spec_ordering_key p == 1) with
  | n :: _ => n
  | [] => ""

/-- Model satisfies: every fragment of the pattern occurs in the spec. -/
def msatisfies (a b : MSpec) : Bool :=
  b.parts.all (fun p => a.parts.contains p)

/-- Model constrain: accumulate the fragments of the argument. -/
def mconstrain (a b : MSpec) : Except PyErr MSpec :=
  .ok ⟨a.parts ++ b.parts, a.isConcrete⟩

/-- Model concretized: mark the spec concrete, never failing. -/
def mconcretized (s : MSpec) : Except PyErr MSpec :=
  .ok ⟨s.parts, true⟩

/-- The collaborator bundle of the executable model. -/
def mAPI : SpecAPI MSpec :=
  { parse := mparse, name := mname, satisfies := msatisfies,
    constrain := mconstrain, concretized := mconcretized }

/-- A collaborator bundle whose concretizer reports an infeasible
dependency request whose offending name matches no constraint fragment:
the behavior of the external concretizer at the failing input of the
error-attribution claim. -/
def mAPIdepFail : SpecAPI MSpec :=
  { mAPI with concretized :=
      fun _ => Except.error (.invalidDependency "Package mpileaks does not depend on bogus") }

/-- A collaborator bundle whose concretizer reports an unknown variant
name. -/
def mAPIvarFail : SpecAPI MSpec :=
  { mAPI with concretized :=
      fun _ => Except.error (.unknownVariant "unknown variant bogus for package mpileaks") }

/-- A collaborator bundle whose concretizer fails with an error of neither
recoverable kind. -/
def mAPIotherFail : SpecAPI MSpec :=
  { mAPI with concretized :=
      fun _ => Except.error (.otherError "UnsatisfiableSpecError" "mpileaks is unsatisfiable") }

/-- A reference table with one named list `a` whose expanded elements are
`[x]`, for the double-marker counterexample. -/
def refA : RefTable := fun n => if n = "a" then some [.s "x"] else none

/-- The six-axis matrix of the constraint-ordering example (§8 of the
spec; `test_spec_list_constraint_ordering` in the module's test file). -/
def sixAxisYaml : Yaml :=
  .m [("matrix", .l [.l [.s "^mvapich2"], .l [.s "%gcc@4.9.3"],
       .l [.s "zlib", .s "libelf"], .l [.s "~shared"],
       .l [.s "cflags=-O3", .s "cflags=\"-g -O0\""], .l [.s "^foo"]])]

/-- The kept order of the `zlib`/`cflags=-O3` combination of the six-axis
example, as the code computes it: the stable sort keeps `~shared` (axis 3)
before `cflags=-O3` (axis 4) and `^mvapich2` (axis 0) before `^foo`
(axis 5). -/
def sixAxisFirstCombo : List String :=
  ["zlib", "~shared", "cflags=-O3", "%gcc@4.9.3", "^mvapich2", "^foo"]

/-- The order the spec's example asserts for the same combination. -/
def sixAxisClaimedCombo : List String :=
  ["zlib", "cflags=-O3", "~shared", "%gcc@4.9.3", "^foo", "^mvapich2"]

/-- The constraint builder as the spec's words describe it (§4.3), for
comparison with the code's `constraintsOfItem`: form the cartesian product
of the axes in axis order; sort each combination by the Ordering Key;
discard a combination whose space-joined sorted probe spec satisfies any
exclude pattern; emit the survivors, sorted and parsed, in
product-iteration order with no gaps. -/
def specSideMatrixLists {Spec : Type} (api : SpecAPI Spec)
    (axes : List (List String)) (excludes : List String) : List (List Spec) :=
  ((pyProduct axes).filter (fun combo =>
      let ordered := pySorted spec_ordering_key combo
      let probe := api.parse (String.intercalate " " ordered)
      !(excludes.any (fun x => api.satisfies probe (api.parse x))))).map
    (fun combo => (pySorted spec_ordering_key combo).map api.parse)

/-- Bind of a success value in the exception monad. -/
theorem exceptBindOk {α β : Type} (a : α) (f : α → Except PyErr β) :
    (do let x ← Except.ok a; f x) = f a := rfl

/-- Bind of an error in the exception monad. -/
theorem exceptBindErr {α β : Type} (e : PyErr) (f : α → Except PyErr β) :
    (do let x ← Except.error e; f x) = (.error e : Except PyErr β) := rfl

/-- Both recoverable-failure handlers of the retry loop raise before ever
reaching `invalid_constraints.extend`, so an iteration never loops back. -/
theorem attemptStep_ne_next {Spec : Type} [DecidableEq Spec] (api : SpecAPI Spec)
    (root : Spec) (cl invalid : List Spec) (root2 : Spec) (invalid2 : List Spec) :
    attemptStep api root cl invalid ≠ StepOut.next root2 invalid2 := by
  unfold attemptStep
  split
  · simp
  · split
    · simp
    · split <;> simp
    · simp
    · simp

/-- The retry loop never takes a second iteration: its outcome is fixed by
the first attempt, for any positive fuel. -/
theorem concretizeLoop_fuel_one {Spec : Type} [DecidableEq Spec] (api : SpecAPI Spec)
    (cl : List Spec) (root : Spec) (invalid : List Spec) (fuel : Nat) (h : 1 ≤ fuel) :
    concretizeLoop api cl root invalid fuel = concretizeLoop api cl root invalid 1 := by
  obtain ⟨n, rfl⟩ : ∃ n, fuel = n + 1 := ⟨fuel - 1, (Nat.succ_pred_eq_of_pos h).symm⟩
  show concretizeLoop api cl root invalid (n + 1) = concretizeLoop api cl root invalid (0 + 1)
  unfold concretizeLoop
  cases h2 : attemptStep api root cl invalid with
  | done conc => rfl
  | fail e => rfl
  | next root2 invalid2 => exact absurd h2 (attemptStep_ne_next api root cl invalid root2 invalid2)

/-- C1: for every constraint list, the retry loop terminates: its result is
already fixed after one attempt (so it performs at most as many additional
attempts as there are non-root fragments, namely zero — the handlers raise
before ever growing the invalid set, as `attemptStep_ne_next` shows), and
fragments marked invalid are excluded from the constrain pass, so marking
an already-invalid fragment again never causes it to be re-applied. -/
theorem spec_list_C1_retry_loop_terminates {Spec : Type} [DecidableEq Spec]
    (api : SpecAPI Spec) (root : Spec) (cl invalid : List Spec) (fuel : Nat)
    (hfuel : 1 ≤ fuel) :
    concretizeLoop api cl root invalid fuel = concretizeLoop api cl root invalid 1
    ∧ (∀ root2 invalid2, attemptStep api root cl invalid ≠ StepOut.next root2 invalid2)
    ∧ (∀ c, c ∈ invalid → c ∉ appliedFragments cl invalid) := by
  refine ⟨concretizeLoop_fuel_one api cl root invalid fuel hfuel,
          fun root2 invalid2 => attemptStep_ne_next api root cl invalid root2 invalid2,
          fun c hc hmem => ?_⟩
  have := List.of_mem_filter hmem
  simp at this
  exact this hc

/-- Witness for C1 at a concrete input. -/
theorem spec_list_C1_witness :
    1 ≤ 3
    ∧ (concretizeLoop mAPI [mparse "~shared"] (mparse "zlib") [] 3 =
         concretizeLoop mAPI [mparse "~shared"] (mparse "zlib") [] 1
       ∧ (∀ root2 invalid2, attemptStep mAPI (mparse "zlib") [mparse "~shared"] [] ≠
            StepOut.next root2 invalid2)
       ∧ (∀ c, c ∈ ([] : List MSpec) → c ∉ appliedFragments [mparse "~shared"] [])) :=
  ⟨by decide,
   spec_list_C1_retry_loop_terminates mAPI (mparse "zlib") [mparse "~shared"] [] 3 (by decide)⟩

/-- C2: when the concretizer reports an infeasible dependency whose
offending name matches no fragment, the code does not re-raise the
original error: the handler crashes reading the undefined name
`invalid_depstring`; the unknown-variant handler likewise crashes reading
the never-imported name `re`; an error of any other kind propagates to the
caller unchanged. -/
theorem spec_list_C2_handler_nameerror :
    concreteFromConstraints mAPIdepFail 5 [[mparse "mpileaks"]] none =
      .error (.nameError "invalid_depstring")
    ∧ concreteFromConstraints mAPIvarFail 5 [[mparse "mpileaks"]] none =
      .error (.nameError "re")
    ∧ concreteFromConstraints mAPIotherFail 5 [[mparse "mpileaks"]] none =
      .error (.otherError "UnsatisfiableSpecError" "mpileaks is unsatisfiable") :=
  ⟨rfl, rfl, rfl⟩

/-- C4: a marker whose name is absent from the reference table does not
raise `UndefinedReferenceError`: the raise site names
`InvalidReferenceError`, which is not defined anywhere in the module, so
the expansion fails with `NameError` instead. -/
theorem spec_list_C4_nameerror_not_undefined_reference :
    expandList (fun _ => none) "specs" [.s "$undefinedlist"] =
      .error (.nameError "InvalidReferenceError")
    ∧ ∀ msg, expandList (fun _ => none) "specs" [.s "$undefinedlist"] ≠
        .error (.undefinedReference msg) := by
  refine ⟨rfl, fun msg h => ?_⟩
  rw [show expandList (fun _ => none) "specs" [.s "$undefinedlist"] =
        .error (.nameError "InvalidReferenceError") from rfl] at h
  simp at h

/-- C10: a freshly constructed list has the `None` sentinel in its Tier-1
slot; `add` raises `AttributeError` exactly when that slot is still
`None`, and succeeds once the expanded list has been computed. -/
theorem spec_list_C10_add_requires_expanded_cache {Spec : Type}
    (n : String) (yl : List Yaml) (ref : RefTable) (sl : SpecList Spec) (sp : String) :
    (mkSpecList n yl ref : SpecList Spec).expanded = none
    ∧ (sl.expanded = none →
        add sl sp = .error (.attributeError "NoneType object has no attribute append"))
    ∧ (∀ e, sl.expanded = some e →
        add sl sp = .ok { sl with rawList := sl.rawList ++ [.s sp],
                                  expanded := some (e ++ [.s sp]),
                                  constraints := none, specsCache := none,
                                  concreteCache := none }) := by
  refine ⟨rfl, fun h => ?_, fun e h => ?_⟩ <;> simp [add, h]

/-- Witness for C10: `add` on a never-read list fails. -/
theorem spec_list_C10_witness :
    add (mkSpecList "specs" [.s "mpileaks"] (fun _ => none) : SpecList MSpec) "libelf" =
      .error (.attributeError "NoneType object has no attribute append") :=
  (spec_list_C10_add_requires_expanded_cache "specs" [.s "mpileaks"] (fun _ => none)
      (mkSpecList "specs" [.s "mpileaks"] (fun _ => none)) "libelf").2.1 rfl

/-- Counterexample to C8 as stated: on a `SpecList` whose expanded view was
never read, `add` does not append — it raises `AttributeError`. -/
theorem spec_list_C8_counterexample :
    add (mkSpecList "specs" [] (fun _ => none) : SpecList MSpec) "libdwarf" =
      .error (.attributeError "NoneType object has no attribute append") := rfl

/-- Counterexample to C3 as stated: with `a` mapping to `[x]`, the list
`[$a, $a]` expands to `[x, $a]` — the marker after the first marker is
returned unchanged, not replaced by `x`. -/
theorem spec_list_C3_counterexample :
    expandList refA "specs" [.s "$a", .s "$a"] = .ok [.s "x", .s "$a"]
    ∧ expandList refA "specs" [.s "$a", .s "$a"] ≠ .ok [.s "x", .s "x"] := by
  refine ⟨rfl, fun h => ?_⟩
  rw [show expandList refA "specs" [.s "$a", .s "$a"] = .ok [.s "x", .s "$a"] from rfl] at h
  simp at h

/-- Counterexample to C6 as stated: the merged-specs computation accepts a
constraint list with zero named fragments without raising
`InvalidSpecConstraintError`. -/
theorem spec_list_C6_counterexample :
    specsFromConstraints mAPI [[mparse "~debug"]] =
      .ok ([mparse "~debug"], [[mparse "~debug"]])
    ∧ ([mparse "~debug"].filter (fun c => mAPI.name c != "")).length = 0 :=
  ⟨rfl, by decide⟩

/-- Counterexample to C7 as stated: computing the merged-specs view
replaces the head of the cached two-fragment constraint list with the
merged object, so the cached list is mutated. -/
theorem spec_list_C7_counterexample :
    specsFromConstraints mAPI [[mparse "zlib", mparse "~shared"]] =
      .ok ([⟨["zlib", "~shared"], false⟩],
           [[⟨["zlib", "~shared"], false⟩, mparse "~shared"]])
    ∧ [[(⟨["zlib", "~shared"], false⟩ : MSpec), mparse "~shared"]] ≠
        [[mparse "zlib", mparse "~shared"]] :=
  ⟨rfl, by decide⟩

theorem expandList_splice (ref : RefTable) (ln : String) (pre : List Yaml)
    (hpre : ∀ y ∈ pre, markerNameOf y = none)
    (v nm : String) (exp : List Yaml) (post : List Yaml)
    (hv : markerNameOf (.s v) = some nm) (href : ref nm = some exp) :
    expandList ref ln (pre ++ .s v :: post) = (do
      let pre2 ← expandEach ref ln pre
      let post2 ← expandEach ref ln post
      pure (pre2 ++ exp ++ post2)) := by
  induction pre with
  | nil =>
    simp only [List.nil_append, expandList, hv, href, expandEach, exceptBindOk]
    cases hp : expandEach ref ln post <;>
      simp [hp, exceptBindOk, exceptBindErr, pure, Except.pure]
  | cons y ys ih =>
    have hy : markerNameOf y = none := hpre y (by simp)
    have hys : ∀ z ∈ ys, markerNameOf z = none := fun z hz => hpre z (by simp [hz])
    simp only [List.cons_append, expandList, hy, expandEach, List.append_eq]
    cases he : expandRefs ref ln y with
    | error e => simp [he, exceptBindErr]
    | ok y2 =>
      rw [ih hys]
      cases h1 : expandEach ref ln ys <;> cases h2 : expandEach ref ln post <;>
        simp [he, h1, h2, exceptBindOk, exceptBindErr, pure, Except.pure]

theorem expandEach_cons_str (ref : RefTable) (ln v : String) (rest : List Yaml) :
    expandEach ref ln (.s v :: rest) = (do
      let r ← expandEach ref ln rest
      pure (Yaml.s v :: r)) := by
  simp only [expandEach, expandRefs, exceptBindOk]
  cases h : expandEach ref ln rest <;> simp [h, exceptBindOk, exceptBindErr, pure, Except.pure]

theorem expandList_two_markers (ref : RefTable) (ln v1 nm1 v2 : String) (exp1 : List Yaml)
    (h1 : markerNameOf (.s v1) = some nm1) (h2 : ref nm1 = some exp1) :
    expandList ref ln [.s v1, .s v2] = .ok (exp1 ++ [.s v2]) := by
  simp only [expandList, h1, h2, expandEach, expandRefs, exceptBindOk]

theorem expandPairs_keys (ref : RefTable) (ln : String) :
    ∀ (pairs res : List (String × Yaml)),
    expandPairs ref ln pairs = .ok res →
    res.map Prod.fst = pairs.map Prod.fst ∧
    List.Forall₂ (fun p q => expandRefs ref ln p.2 = .ok q.2) pairs res := by
  intro pairs
  induction pairs with
  | nil =>
    intro res h
    simp only [expandPairs] at h
    cases h
    simp
  | cons p ps ih =>
    intro res h
    obtain ⟨k, v⟩ := p
    simp only [expandPairs] at h
    cases he : expandRefs ref ln v with
    | error e => rw [he, exceptBindErr] at h; cases h
    | ok v2 =>
      rw [he, exceptBindOk] at h
      cases hr : expandPairs ref ln ps with
      | error e => rw [hr, exceptBindErr] at h; cases h
      | ok res2 =>
        rw [hr, exceptBindOk] at h
        cases h
        obtain ⟨hk, hf⟩ := ih res2 hr
        exact ⟨by simp [hk], List.Forall₂.cons he hf⟩

theorem spec_ordering_key_range (s : String) :
    1 ≤ spec_ordering_key s ∧ spec_ordering_key s ≤ 5 := by
  unfold spec_ordering_key
  split
  · exact ⟨by norm_num, by norm_num⟩
  · split
    · exact ⟨by norm_num, by norm_num⟩
    · split
      · exact ⟨by norm_num, by norm_num⟩
      · split <;> exact ⟨by norm_num, by norm_num⟩

theorem key_mem_filter {l : List String} {i : Nat} {a : String}
    (h : a ∈ l.filter (fun x => spec_ordering_key x == i)) : spec_ordering_key a = i := by
  have := List.of_mem_filter h
  simpa using this

theorem pySorted_pairwise (l : List String) :
    List.Pairwise (fun a b => spec_ordering_key a ≤ spec_ordering_key b)
      (pySorted spec_ordering_key l) := by
  unfold pySorted
  have cls : ∀ i : Nat, List.Pairwise (fun a b => spec_ordering_key a ≤ spec_ordering_key b)
      (l.filter (fun x => spec_ordering_key x == i)) := by
    intro i
    refine List.pairwise_of_forall_mem_list ?_
    intro a ha b hb
    rw [key_mem_filter ha, key_mem_filter hb]
  simp only [List.pairwise_append]
  refine ⟨⟨⟨⟨cls 1, cls 2, ?_⟩, cls 3, ?_⟩, cls 4, ?_⟩, cls 5, ?_⟩ <;>
    intro a ha b hb <;>
    try simp only [List.mem_append] at ha
  · rw [key_mem_filter ha, key_mem_filter hb]; norm_num
  · rcases ha with ha | ha <;> rw [key_mem_filter ha, key_mem_filter hb] <;> norm_num
  · rcases ha with (ha | ha) | ha <;> rw [key_mem_filter ha, key_mem_filter hb] <;> norm_num
  · rcases ha with ((ha | ha) | ha) | ha <;> rw [key_mem_filter ha, key_mem_filter hb] <;>
      norm_num

theorem filter_key_pair (l : List String) (i k : Nat) :
    l.filter (fun x => (spec_ordering_key x == k) && (spec_ordering_key x == i)) =
      if i = k then l.filter (fun x => spec_ordering_key x == k) else [] := by
  split
  · next h =>
    subst h
    refine List.filter_congr ?_
    intro x _
    simp [Bool.and_self]
  · next h =>
    rw [List.filter_eq_nil_iff]
    intro a _
    simp only [Bool.and_eq_true, beq_iff_eq, not_and]
    intro h1 h2
    exact h (h2 ▸ h1 ▸ rfl)

theorem pySorted_stable (l : List String) (k : Nat) :
    (pySorted spec_ordering_key l).filter (fun x => spec_ordering_key x == k) =
      l.filter (fun x => spec_ordering_key x == k) := by
  unfold pySorted
  simp only [List.filter_append, List.filter_filter, filter_key_pair]
  by_cases h1 : k = 1
  · subst h1; simp
  by_cases h2 : k = 2
  · subst h2; simp
  by_cases h3 : k = 3
  · subst h3; simp
  by_cases h4 : k = 4
  · subst h4; simp
  by_cases h5 : k = 5
  · subst h5; simp
  · -- k outside 1..5: every class is empty and so is the right-hand side
    rw [if_neg (show ¬(1 = k) by omega), if_neg (show ¬(2 = k) by omega),
        if_neg (show ¬(3 = k) by omega), if_neg (show ¬(4 = k) by omega),
        if_neg (show ¬(5 = k) by omega)]
    rw [show l.filter (fun x => spec_ordering_key x == k) = [] from ?_]
    · simp
    · rw [List.filter_eq_nil_iff]
      intro a _
      have := spec_ordering_key_range a
      simp only [beq_iff_eq]
      omega

theorem filterMap_if {α β : Type} (p : α → Bool) (f : α → β) (l : List α) :
    l.filterMap (fun c => if p c then none else some (f c)) =
      (l.filter (fun c => !p c)).map f := by
  induction l with
  | nil => rfl
  | cons x xs ih =>
    by_cases h : p x <;> simp [List.filterMap_cons, List.filter_cons, h, ih]

theorem constraintsOfItem_matrix {Spec : Type} (api : SpecAPI Spec)
    (pairs : List (String × Yaml)) (my : Yaml)
    (h : yamlLookup "matrix" pairs = some my) :
    constraintsOfItem api (.m pairs) =
      .ok (specSideMatrixLists api (axesOf my) (excludesOf pairs)) := by
  simp only [constraintsOfItem, h]
  unfold specSideMatrixLists
  rw [filterMap_if (fun combo =>
        (excludesOf pairs).any (fun x =>
          api.satisfies (api.parse (String.intercalate " "
            (pySorted spec_ordering_key combo))) (api.parse x)))
      (fun combo => (pySorted spec_ordering_key combo).map api.parse)]

-- example conjunct, closed
example :
    constraintsOfItem mAPI sixAxisYaml =
      .ok [sixAxisFirstCombo.map mparse,
           ["zlib", "~shared", "cflags=\"-g -O0\"", "%gcc@4.9.3", "^mvapich2", "^foo"].map mparse,
           ["libelf", "~shared", "cflags=-O3", "%gcc@4.9.3", "^mvapich2", "^foo"].map mparse,
           ["libelf", "~shared", "cflags=\"-g -O0\"", "%gcc@4.9.3", "^mvapich2", "^foo"].map mparse] := by
  rfl

example : sixAxisFirstCombo.map mparse ≠ sixAxisClaimedCombo.map mparse := by decide

theorem mergeAll_ok_forall₂ {Spec : Type} (api : SpecAPI Spec) :
    ∀ (lists : List (List Spec)) (merged : List Spec),
    mergeAll api lists = .ok merged →
    List.Forall₂ (fun cl m => mergeConstraintList api cl = .ok m) lists merged := by
  intro lists
  induction lists with
  | nil =>
    intro merged h
    simp only [mergeAll] at h
    cases h
    exact List.Forall₂.nil
  | cons cl rest ih =>
    intro merged h
    simp only [mergeAll] at h
    cases hm : mergeConstraintList api cl with
    | error e => rw [hm, exceptBindErr] at h; cases h
    | ok m =>
      rw [hm, exceptBindOk] at h
      cases hr : mergeAll api rest with
      | error e => rw [hr, exceptBindErr] at h; cases h
      | ok ms =>
        rw [hr, exceptBindOk] at h
        cases h
        exact List.Forall₂.cons hm (ih ms hr)

theorem zipWith_snd_map {α β γ : Type} (g : β → γ) :
    ∀ (l1 : List α) (l2 : List β), l1.length = l2.length →
    List.zipWith (fun _ b => g b) l1 l2 = l2.map g := by
  intro l1
  induction l1 with
  | nil =>
    intro l2 h
    cases l2 with
    | nil => rfl
    | cons b bs => cases h
  | cons a as ih =>
    intro l2 h
    cases l2 with
    | nil => cases h
    | cons b bs =>
      simp only [List.zipWith_cons_cons, List.map_cons]
      rw [ih bs (by simpa using h)]

/-- C7 (amended): computing the merged-specs view is not free of side
effects on the cached constraint lists: each list's first fragment is
replaced in place by the merged spec object (which the view's entries
alias), while the fragments after the head are left unmutated and equal to
their pre-merge values. -/
theorem spec_list_C7_merge_mutates_heads {Spec : Type} (api : SpecAPI Spec)
    (lists mutated : List (List Spec)) (merged : List Spec)
    (h : specsFromConstraints api lists = .ok (merged, mutated)) :
    List.Forall₂ (fun cl m => mergeConstraintList api cl = .ok m) lists merged
    ∧ mutated = List.zipWith (fun m cl => m :: cl.drop 1) merged lists
    ∧ mutated.map (fun cl => cl.drop 1) = lists.map (fun cl => cl.drop 1) := by
  simp only [specsFromConstraints] at h
  cases hm : mergeAll api lists with
  | error e => rw [hm, exceptBindErr] at h; cases h
  | ok ms =>
    rw [hm, exceptBindOk] at h
    cases h
    have hf := mergeAll_ok_forall₂ api lists merged hm
    have hlen : merged.length = lists.length := (List.Forall₂.length_eq hf).symm
    refine ⟨hf, rfl, ?_⟩
    rw [List.map_zipWith]
    simp only [List.drop_succ_cons, List.drop_zero]
    exact zipWith_snd_map (fun cl => cl.drop 1) merged lists hlen

theorem foldlM_constrain_error {Spec : Type} (api : SpecAPI Spec) :
    ∀ (l : List Spec) (acc : Spec) (e : PyErr),
    l.foldlM api.constrain acc = .error e → ∃ a b, api.constrain a b = .error e := by
  intro l
  induction l with
  | nil =>
    intro acc e h
    simp [List.foldlM_nil, pure, Except.pure] at h
  | cons x xs ih =>
    intro acc e h
    rw [List.foldlM_cons] at h
    cases hc : api.constrain acc x with
    | error e2 => rw [hc, exceptBindErr] at h; cases h; exact ⟨acc, x, hc⟩
    | ok acc2 => rw [hc, exceptBindOk] at h; exact ih acc2 e h

theorem attemptStep_fail_not_isc {Spec : Type} [DecidableEq Spec] (api : SpecAPI Spec)
    (root : Spec) (cl invalid : List Spec) (e : PyErr)
    (hconc : ∀ s m, api.concretized s ≠ .error (.invalidSpecConstraint m))
    (hcons : ∀ a b m, api.constrain a b ≠ .error (.invalidSpecConstraint m))
    (h : attemptStep api root cl invalid = .fail e) :
    ∀ m, e ≠ .invalidSpecConstraint m := by
  intro m hcontra
  subst hcontra
  unfold attemptStep at h
  split at h
  · next e2 ha =>
    cases h
    obtain ⟨a, b, hab⟩ := foldlM_constrain_error api _ root _ ha
    exact hcons a b m hab
  · next s ha =>
    split at h
    · cases h
    · split at h <;> cases h
    · cases h
    · cases h
      exact hconc s m (by assumption)

theorem concretizeLoop_error_not_isc {Spec : Type} [DecidableEq Spec] (api : SpecAPI Spec)
    (cl : List Spec)
    (hconc : ∀ s m, api.concretized s ≠ .error (.invalidSpecConstraint m))
    (hcons : ∀ a b m, api.constrain a b ≠ .error (.invalidSpecConstraint m)) :
    ∀ (fuel : Nat) (root : Spec) (invalid : List Spec) (e : PyErr),
    concretizeLoop api cl root invalid fuel = .error e →
    ∀ m, e ≠ .invalidSpecConstraint m := by
  intro fuel
  induction fuel with
  | zero =>
    intro root invalid e h m
    simp only [concretizeLoop] at h
    cases h
    simp
  | succ n ih =>
    intro root invalid e h m
    simp only [concretizeLoop] at h
    split at h
    · cases h
    · next e2 hs =>
      cases h
      exact attemptStep_fail_not_isc api root cl invalid _ hconc hcons hs m
    · next root2 invalid2 hs => exact ih root2 invalid2 e h m

theorem nextLastS_of_ne_nil {Spec : Type} (cl : List Spec) (h : cl ≠ []) (lastS : Option Spec) :
    nextLastS cl lastS = some (cl.getLast h) := by
  unfold nextLastS
  rw [List.getLast?_eq_getLast cl h]

/-- C6 (amended): the exactly-one-named-fragment check is enforced when
the concrete-specs view merges, not by the merged-specs view: for a
nonempty constraint list, concretization fails with the fatal
`InvalidSpecConstraintError` whenever the list does not contain exactly
one fragment carrying a package name, and a list with exactly one named
root fragment never raises this error (provided the collaborator itself
never raises it). -/
theorem spec_list_C6_root_check {Spec : Type} [DecidableEq Spec] (api : SpecAPI Spec)
    (cl : List Spec) (rest : List (List Spec)) (fuel : Nat) (hne : cl ≠ []) :
    ((cl.filter (fun c => api.name c != "")).length ≠ 1 →
      concreteFromConstraints api fuel (cl :: rest) none =
        .error (.invalidSpecConstraint
          ("Spec " ++ api.name (cl.getLast hne) ++ " is not a valid concretization target" ++
           "all specs must have a single name constraint for concretization.")))
    ∧ ((cl.filter (fun c => api.name c != "")).length = 1 →
        (∀ s m, api.concretized s ≠ .error (.invalidSpecConstraint m)) →
        (∀ a b m, api.constrain a b ≠ .error (.invalidSpecConstraint m)) →
        ∀ m, concreteFromConstraints api fuel [cl] none ≠
          .error (.invalidSpecConstraint m)) := by
  constructor
  · intro hcount
    simp only [concreteFromConstraints]
    rw [nextLastS_of_ne_nil cl hne none]
    rcases hf : cl.filter (fun c => api.name c != "") with _ | ⟨r, _ | ⟨r2, rs⟩⟩
    · rfl
    · exact absurd (by rw [hf]; rfl) hcount
    · rfl
  · intro hcount hconc hcons m hcontra
    obtain ⟨root, hf⟩ : ∃ r, cl.filter (fun c => api.name c != "") = [r] := by
      rcases hf : cl.filter (fun c => api.name c != "") with _ | ⟨r, _ | ⟨r2, rs⟩⟩
      · exact absurd hcount (by rw [hf]; simp)
      · exact ⟨r, rfl⟩
      · exact absurd hcount (by rw [hf]; simp)
    simp only [concreteFromConstraints, hf] at hcontra
    split at hcontra
    · next e hl =>
      cases hcontra
      exact concretizeLoop_error_not_isc api (removeFirst root cl) hconc hcons
        fuel root [] _ hl m rfl
    · next conc hl =>
      rw [exceptBindOk] at hcontra
      cases hcontra

theorem attemptStep_done_inv {Spec : Type} [DecidableEq Spec] (api : SpecAPI Spec)
    (root : Spec) (cl invalid : List Spec) (conc : Spec)
    (h : attemptStep api root cl invalid = .done conc) :
    ∃ s, appliedSpec api root cl invalid = .ok s ∧ api.concretized s = .ok conc := by
  unfold attemptStep at h
  split at h
  · cases h
  · next s ha =>
    split at h
    · next conc2 hc => cases h; exact ⟨s, ha, hc⟩
    · split at h <;> cases h
    · cases h
    · cases h

theorem concretizeLoop_ok_inv {Spec : Type} [DecidableEq Spec] (api : SpecAPI Spec)
    (cl : List Spec) (root : Spec) (invalid : List Spec) (fuel : Nat) (conc : Spec)
    (h : concretizeLoop api cl root invalid fuel = .ok conc) :
    ∃ s, appliedSpec api root cl invalid = .ok s ∧ api.concretized s = .ok conc := by
  cases fuel with
  | zero => cases h
  | succ n =>
    simp only [concretizeLoop] at h
    split at h
    · next conc2 hs => cases h; exact attemptStep_done_inv api root cl invalid conc hs
    · cases h
    · next root2 invalid2 hs =>
      exact absurd hs (attemptStep_ne_next api root cl invalid root2 invalid2)

theorem removeFirst_length {Spec : Type} [DecidableEq Spec] (root : Spec) :
    ∀ (cl : List Spec), root ∈ cl → (removeFirst root cl).length + 1 = cl.length := by
  intro cl
  induction cl with
  | nil => intro h; cases h
  | cons y ys ih =>
    intro h
    simp only [removeFirst]
    by_cases hy : y = root
    · rw [if_pos hy]; rfl
    · rw [if_neg hy]
      have : root ∈ ys := by
        rcases List.mem_cons.mp h with h2 | h2
        · exact absurd h2.symm hy
        · exact h2
      simp only [List.length_cons]
      rw [ih this]

theorem concreteFromConstraints_ok_inv {Spec : Type} [DecidableEq Spec] (api : SpecAPI Spec)
    (fuel : Nat) :
    ∀ (lists : List (List Spec)) (lastS : Option Spec) (concs : List Spec)
      (mutated : List (List Spec)),
    concreteFromConstraints api fuel lists lastS = .ok (concs, mutated) →
    List.Forall₂ (fun cl cl2 => ∃ root, root ∈ cl ∧ api.name root ≠ "" ∧
        cl2 = removeFirst root cl ∧ cl2.length + 1 = cl.length ∧ cl2 ≠ cl) lists mutated
    ∧ List.Forall₂ (fun cl conc => ∃ root s,
        cl.filter (fun c => api.name c != "") = [root]
        ∧ appliedSpec api root (removeFirst root cl) [] = .ok s
        ∧ api.concretized s = .ok conc) lists concs := by
  intro lists
  induction lists with
  | nil =>
    intro lastS concs mutated h
    simp only [concreteFromConstraints] at h
    cases h
    exact ⟨List.Forall₂.nil, List.Forall₂.nil⟩
  | cons cl rest ih =>
    intro lastS concs mutated h
    simp only [concreteFromConstraints] at h
    split at h
    · next root hf =>
      split at h
      · cases h
      · next conc hl =>
        cases hr : concreteFromConstraints api fuel rest (nextLastS cl lastS) with
        | error e => rw [hr, exceptBindErr] at h; cases h
        | ok p =>
          obtain ⟨cs, mls⟩ := p
          rw [hr, exceptBindOk] at h
          cases h
          obtain ⟨ih1, ih2⟩ := ih _ cs mls hr
          have hrootmem : root ∈ cl.filter (fun c => api.name c != "") := by
            rw [hf]; exact List.mem_singleton_self root
          have hmem : root ∈ cl := List.mem_of_mem_filter hrootmem
          have hname : api.name root ≠ "" := by
            have := List.of_mem_filter hrootmem
            simpa using this
          have hlen := removeFirst_length root cl hmem
          refine ⟨List.Forall₂.cons ⟨root, hmem, hname, rfl, hlen, ?_⟩ ih1,
                  List.Forall₂.cons ⟨root, ?_⟩ ih2⟩
          · intro heq
            have : cl.length = cl.length + 1 := by
              conv_lhs => rw [← hlen, heq]
            omega
          · obtain ⟨s, hs1, hs2⟩ := concretizeLoop_ok_inv api (removeFirst root cl)
              root [] fuel conc hl
            exact ⟨s, hf, hs1, hs2⟩
    · split at h <;> cases h

theorem constraintsFromYaml_append {Spec : Type} (api : SpecAPI Spec) :
    ∀ (a b : List Yaml), constraintsFromYaml api (a ++ b) = (do
      let x ← constraintsFromYaml api a
      let y ← constraintsFromYaml api b
      pure (x ++ y)) := by
  intro a b
  induction a with
  | nil =>
    simp only [List.nil_append, constraintsFromYaml, exceptBindOk]
    cases h : constraintsFromYaml api b <;>
      simp [h, exceptBindOk, exceptBindErr, pure, Except.pure]
  | cons item rest ih =>
    simp only [List.cons_append, constraintsFromYaml, List.append_eq]
    cases hi : constraintsOfItem api item with
    | error e => simp [exceptBindErr]
    | ok cs =>
      rw [exceptBindOk, exceptBindOk, ih]
      cases h1 : constraintsFromYaml api rest <;> cases h2 : constraintsFromYaml api b <;>
        simp [h1, h2, exceptBindOk, exceptBindErr, pure, Except.pure, List.append_assoc]

theorem mergeAll_append {Spec : Type} (api : SpecAPI Spec) :
    ∀ (a b : List (List Spec)), mergeAll api (a ++ b) = (do
      let x ← mergeAll api a
      let y ← mergeAll api b
      pure (x ++ y)) := by
  intro a b
  induction a with
  | nil =>
    simp only [List.nil_append, mergeAll, exceptBindOk]
    cases h : mergeAll api b <;>
      simp [h, exceptBindOk, exceptBindErr, pure, Except.pure]
  | cons cl rest ih =>
    simp only [List.cons_append, mergeAll, List.append_eq]
    cases hm : mergeConstraintList api cl with
    | error e => simp [exceptBindErr]
    | ok m =>
      rw [exceptBindOk, exceptBindOk, ih]
      cases h1 : mergeAll api rest <;> cases h2 : mergeAll api b <;>
        simp [h1, h2, exceptBindOk, exceptBindErr, pure, Except.pure, List.append_assoc]

/-- C8 (amended): provided the Tier-1 (expanded-elements) cache is
populated, `add(spec)` appends the rendered spec string to the raw list
and directly to the Tier-1 cache, clears the Tier-2, Tier-3 and Tier-4
caches, and after the call each of the expanded-list, constraint-list and
merged-spec views equals its pre-add (recomputed) value with exactly one
new trailing entry for the added spec, all prior entries unchanged. -/
theorem spec_list_C8_add_appends {Spec : Type} (api : SpecAPI Spec)
    (sl : SpecList Spec) (e : List Yaml) (cls : List (List Spec)) (merged : List Spec)
    (sp : String)
    (he : sl.expanded = some e)
    (hc : constraintsFromYaml api e = .ok cls)
    (hm : mergeAll api cls = .ok merged) :
    ∃ sl2, add sl sp = .ok sl2
      ∧ sl2.rawList = sl.rawList ++ [.s sp]
      ∧ sl2.expanded = some (e ++ [.s sp])
      ∧ sl2.constraints = none ∧ sl2.specsCache = none ∧ sl2.concreteCache = none
      ∧ specs_as_yaml_list sl2 = .ok (e ++ [.s sp], sl2)
      ∧ (∃ sl3, specs_as_constraints api sl2 = .ok (cls ++ [[api.parse sp]], sl3))
      ∧ (∃ sl4, specsView api sl2 = .ok (merged ++ [api.parse sp], sl4)) := by
  have hsingle : constraintsFromYaml api [.s sp] = .ok [[api.parse sp]] := rfl
  have hmsingle : mergeAll api [[api.parse sp]] = .ok [api.parse sp] := rfl
  have hcat : constraintsFromYaml api (e ++ [.s sp]) = .ok (cls ++ [[api.parse sp]]) := by
    rw [constraintsFromYaml_append api e [.s sp], hc, exceptBindOk, hsingle]
    rfl
  have hmcat : mergeAll api (cls ++ [[api.parse sp]]) = .ok (merged ++ [api.parse sp]) := by
    rw [mergeAll_append api cls [[api.parse sp]], hm, exceptBindOk, hmsingle]
    rfl
  refine ⟨{ sl with rawList := sl.rawList ++ [.s sp],
                    expanded := some (e ++ [.s sp]),
                    constraints := none, specsCache := none, concreteCache := none },
          by simp [add, he], rfl, rfl, rfl, rfl, rfl, rfl,
          ⟨{ sl with rawList := sl.rawList ++ [.s sp],
                     expanded := some (e ++ [.s sp]),
                     constraints := some (cls ++ [[api.parse sp]]),
                     specsCache := none, concreteCache := none }, ?_⟩,
          ⟨{ sl with rawList := sl.rawList ++ [.s sp],
                     expanded := some (e ++ [.s sp]),
                     constraints := some (List.zipWith (fun m cl => m :: cl.drop 1)
                       (merged ++ [api.parse sp]) (cls ++ [[api.parse sp]])),
                     specsCache := some (merged ++ [api.parse sp]),
                     concreteCache := none }, ?_⟩⟩
  · simp only [specs_as_constraints, specs_as_yaml_list, exceptBindOk]
    rw [hcat, exceptBindOk]
  · simp only [specsView, specs_as_constraints, specs_as_yaml_list, exceptBindOk]
    rw [hcat, exceptBindOk]
    simp only [exceptBindOk, specsFromConstraints]
    rw [hmcat, exceptBindOk]
    rfl

/-- C3 (amended): reference expansion replaces, within each sequence, only
the first reference marker: the referenced list's already-expanded
elements are spliced as siblings in place, the elements before the marker
(themselves marker-free at this level) and after it are expanded
element-by-element with their order preserved; because the elements after
the marker are expanded individually, a marker occurring after another
marker in the same sequence is returned unchanged as a plain string;
mapping keys are untouched and mapping values are expanded; plain strings
are returned unchanged. -/
theorem spec_list_C3_first_marker_splice (ref : RefTable) (ln : String)
    (pre post : List Yaml) (v nm v2 : String) (exp : List Yaml)
    (pairs res : List (String × Yaml))
    (hpre : ∀ y ∈ pre, markerNameOf y = none)
    (hv : markerNameOf (.s v) = some nm)
    (href : ref nm = some exp)
    (hp : expandPairs ref ln pairs = .ok res) :
    expandList ref ln (pre ++ .s v :: post) = (do
      let pre2 ← expandEach ref ln pre
      let post2 ← expandEach ref ln post
      pure (pre2 ++ exp ++ post2))
    ∧ expandList ref ln [.s v, .s v2] = .ok (exp ++ [.s v2])
    ∧ expandEach ref ln (.s v2 :: post) = (do
        let r ← expandEach ref ln post
        pure (Yaml.s v2 :: r))
    ∧ res.map Prod.fst = pairs.map Prod.fst
    ∧ List.Forall₂ (fun p q => expandRefs ref ln p.2 = .ok q.2) pairs res
    ∧ expandRefs ref ln (.s v2) = .ok (.s v2) :=
  ⟨expandList_splice ref ln pre hpre v nm exp post hv href,
   expandList_two_markers ref ln v nm v2 exp hv href,
   expandEach_cons_str ref ln v2 post,
   (expandPairs_keys ref ln pairs res hp).1,
   (expandPairs_keys ref ln pairs res hp).2,
   rfl⟩

/-- Witness for C3 at a concrete input. -/
theorem spec_list_C3_witness :
    expandList refA "specs" ([.s "w"] ++ .s "$a" :: [.s "z"]) = (do
      let pre2 ← expandEach refA "specs" [.s "w"]
      let post2 ← expandEach refA "specs" [.s "z"]
      pure (pre2 ++ [.s "x"] ++ post2))
    ∧ expandList refA "specs" [.s "$a", .s "$a"] = .ok ([.s "x"] ++ [.s "$a"])
    ∧ expandEach refA "specs" (.s "$a" :: [.s "z"]) = (do
        let r ← expandEach refA "specs" [.s "z"]
        pure (Yaml.s "$a" :: r))
    ∧ [("matrix", Yaml.l [.s "q"])].map Prod.fst = [("matrix", Yaml.l [.s "q"])].map Prod.fst
    ∧ List.Forall₂ (fun p q => expandRefs refA "specs" p.2 = .ok q.2)
        [("matrix", Yaml.l [.s "q"])] [("matrix", Yaml.l [.s "q"])]
    ∧ expandRefs refA "specs" (.s "$a") = .ok (.s "$a") :=
  spec_list_C3_first_marker_splice refA "specs" [.s "w"] [.s "z"] "$a" "a" "$a" [.s "x"]
    [("matrix", Yaml.l [.s "q"])] [("matrix", Yaml.l [.s "q"])]
    (by intro y hy; rw [List.mem_singleton] at hy; subst hy; rfl)
    rfl rfl rfl

/-- Counterexample to C5 as stated: the six-axis example produces its four
combinations, but none of them carries the ordering the spec's example
asserts — the stable sort keeps `~shared` (axis 3) before `cflags=-O3`
(axis 4) and `^mvapich2` (axis 0) before `^foo` (axis 5). -/
theorem spec_list_C5_counterexample :
    constraintsOfItem mAPI sixAxisYaml =
      .ok [sixAxisFirstCombo.map mparse,
           ["zlib", "~shared", "cflags=\"-g -O0\"", "%gcc@4.9.3", "^mvapich2", "^foo"].map mparse,
           ["libelf", "~shared", "cflags=-O3", "%gcc@4.9.3", "^mvapich2", "^foo"].map mparse,
           ["libelf", "~shared", "cflags=\"-g -O0\"", "%gcc@4.9.3", "^mvapich2", "^foo"].map mparse]
    ∧ sixAxisClaimedCombo.map mparse ∉
        [sixAxisFirstCombo.map mparse,
         ["zlib", "~shared", "cflags=\"-g -O0\"", "%gcc@4.9.3", "^mvapich2", "^foo"].map mparse,
         ["libelf", "~shared", "cflags=-O3", "%gcc@4.9.3", "^mvapich2", "^foo"].map mparse,
         ["libelf", "~shared", "cflags=\"-g -O0\"", "%gcc@4.9.3", "^mvapich2", "^foo"].map mparse] :=
  ⟨rfl, by decide⟩

/-- C5 (amended): the constraint builder of a matrix item equals the
spec-side description (cartesian product in axis order, each combination
sorted by the Ordering Key, a combination discarded exactly when its
space-joined sorted probe spec satisfies an exclude pattern, survivors in
product order with no gaps); the sort is by nondecreasing key and stable
(fragments of equal key keep input order); the six-axis example yields
exactly 4 combinations, the `zlib`/`cflags=-O3` one ordered
`zlib ~shared cflags=-O3 %gcc@4.9.3 ^mvapich2 ^foo`. -/
theorem spec_list_C5_matrix_builder {Spec : Type} (api : SpecAPI Spec)
    (pairs : List (String × Yaml)) (my : Yaml) (l : List String) (k : Nat)
    (h : yamlLookup "matrix" pairs = some my) :
    constraintsOfItem api (.m pairs) =
      .ok (specSideMatrixLists api (axesOf my) (excludesOf pairs))
    ∧ List.Pairwise (fun a b => spec_ordering_key a ≤ spec_ordering_key b)
        (pySorted spec_ordering_key l)
    ∧ (pySorted spec_ordering_key l).filter (fun x => spec_ordering_key x == k) =
        l.filter (fun x => spec_ordering_key x == k)
    ∧ constraintsOfItem mAPI sixAxisYaml =
        .ok [sixAxisFirstCombo.map mparse,
             ["zlib", "~shared", "cflags=\"-g -O0\"", "%gcc@4.9.3", "^mvapich2", "^foo"].map mparse,
             ["libelf", "~shared", "cflags=-O3", "%gcc@4.9.3", "^mvapich2", "^foo"].map mparse,
             ["libelf", "~shared", "cflags=\"-g -O0\"", "%gcc@4.9.3", "^mvapich2", "^foo"].map mparse] :=
  ⟨constraintsOfItem_matrix api pairs my h, pySorted_pairwise l, pySorted_stable l k, rfl⟩

/-- Witness for C5 at a concrete input. -/
theorem spec_list_C5_witness :
    constraintsOfItem mAPI (.m [("matrix", Yaml.l [Yaml.l [.s "zlib"], Yaml.l [.s "%gcc"]])]) =
      .ok (specSideMatrixLists mAPI
            (axesOf (Yaml.l [Yaml.l [.s "zlib"], Yaml.l [.s "%gcc"]]))
            (excludesOf [("matrix", Yaml.l [Yaml.l [.s "zlib"], Yaml.l [.s "%gcc"]])]))
    ∧ List.Pairwise (fun a b => spec_ordering_key a ≤ spec_ordering_key b)
        (pySorted spec_ordering_key ["^mvapich2", "%gcc@4.9.3", "zlib", "~shared", "cflags=-O3", "^foo"])
    ∧ (pySorted spec_ordering_key ["^mvapich2", "%gcc@4.9.3", "zlib", "~shared", "cflags=-O3", "^foo"]).filter
        (fun x => spec_ordering_key x == 2) =
        ["^mvapich2", "%gcc@4.9.3", "zlib", "~shared", "cflags=-O3", "^foo"].filter
          (fun x => spec_ordering_key x == 2)
    ∧ constraintsOfItem mAPI sixAxisYaml =
        .ok [sixAxisFirstCombo.map mparse,
             ["zlib", "~shared", "cflags=\"-g -O0\"", "%gcc@4.9.3", "^mvapich2", "^foo"].map mparse,
             ["libelf", "~shared", "cflags=-O3", "%gcc@4.9.3", "^mvapich2", "^foo"].map mparse,
             ["libelf", "~shared", "cflags=\"-g -O0\"", "%gcc@4.9.3", "^mvapich2", "^foo"].map mparse] :=
  spec_list_C5_matrix_builder mAPI [("matrix", Yaml.l [Yaml.l [.s "zlib"], Yaml.l [.s "%gcc"]])]
    (Yaml.l [Yaml.l [.s "zlib"], Yaml.l [.s "%gcc"]])
    ["^mvapich2", "%gcc@4.9.3", "zlib", "~shared", "cflags=-O3", "^foo"] 2 rfl

/-- Witness for C6 at concrete inputs: a two-fragment anonymous list fails
with `InvalidSpecConstraintError`; a list with exactly one named fragment
never fails with it. -/
theorem spec_list_C6_witness :
    concreteFromConstraints mAPI 3 [[mparse "~debug", mparse "+opt"]] none =
      .error (.invalidSpecConstraint
        ("Spec " ++ mAPI.name (([mparse "~debug", mparse "+opt"]).getLast (by decide)) ++
         " is not a valid concretization target" ++
         "all specs must have a single name constraint for concretization."))
    ∧ ∀ m, concreteFromConstraints mAPI 3 [[mparse "zlib", mparse "~shared"]] none ≠
        .error (.invalidSpecConstraint m) :=
  ⟨(spec_list_C6_root_check mAPI [mparse "~debug", mparse "+opt"] [] 3 (by decide)).1 (by decide),
   (spec_list_C6_root_check mAPI [mparse "zlib", mparse "~shared"] [] 3 (by decide)).2 (by decide)
     (fun s m => by simp [mAPI, mconcretized])
     (fun a b m => by simp [mAPI, mconstrain])⟩

/-- Witness for C7 at a concrete input. -/
theorem spec_list_C7_witness :
    List.Forall₂ (fun cl m => mergeConstraintList mAPI cl = .ok m)
      [[mparse "zlib", mparse "~shared"]] [⟨["zlib", "~shared"], false⟩]
    ∧ [[(⟨["zlib", "~shared"], false⟩ : MSpec), mparse "~shared"]] =
        List.zipWith (fun m cl => m :: cl.drop 1)
          [(⟨["zlib", "~shared"], false⟩ : MSpec)] [[mparse "zlib", mparse "~shared"]]
    ∧ ([[(⟨["zlib", "~shared"], false⟩ : MSpec), mparse "~shared"]]).map (fun cl => cl.drop 1) =
        ([[mparse "zlib", mparse "~shared"]]).map (fun cl => cl.drop 1) :=
  spec_list_C7_merge_mutates_heads mAPI [[mparse "zlib", mparse "~shared"]]
    [[⟨["zlib", "~shared"], false⟩, mparse "~shared"]] [⟨["zlib", "~shared"], false⟩] rfl

/-- Witness for C8 at a concrete input. -/
theorem spec_list_C8_witness :
    ∃ sl2, add { name := "specs", reference := fun _ => none,
                 rawList := [Yaml.s "libelf"], expanded := some [Yaml.s "libelf"],
                 constraints := none, specsCache := none, concreteCache := none }
             "libdwarf" = .ok sl2
      ∧ sl2.rawList = [Yaml.s "libelf"] ++ [.s "libdwarf"]
      ∧ sl2.expanded = some ([Yaml.s "libelf"] ++ [.s "libdwarf"])
      ∧ sl2.constraints = none ∧ sl2.specsCache = none ∧ sl2.concreteCache = none
      ∧ specs_as_yaml_list sl2 = .ok ([Yaml.s "libelf"] ++ [.s "libdwarf"], sl2)
      ∧ (∃ sl3, specs_as_constraints mAPI sl2 =
          .ok ([[mparse "libelf"]] ++ [[mAPI.parse "libdwarf"]], sl3))
      ∧ (∃ sl4, specsView mAPI sl2 =
          .ok ([mparse "libelf"] ++ [mAPI.parse "libdwarf"], sl4)) :=
  spec_list_C8_add_appends mAPI
    { name := "specs", reference := fun _ => none,
      rawList := [Yaml.s "libelf"], expanded := some [Yaml.s "libelf"],
      constraints := none, specsCache := none, concreteCache := none }
    [Yaml.s "libelf"] [[mparse "libelf"]] [mparse "libelf"] "libdwarf" rfl rfl rfl

/-- C9: reading the concrete-specs view destructively mutates the Tier-2
constraint-lists cache: when the view computes successfully from a cached
set of constraint lists, every cached list has its (unique, named) root
fragment removed in place — so it is strictly shorter than, and different
from, its pre-read value, and a subsequent constraint-lists read returns
exactly these mutated lists — and each concrete spec is obtained by
constrain-folding the surviving fragments into the removed root object and
concretizing it. -/
theorem spec_list_C9_concrete_read_mutates_constraints {Spec : Type} [DecidableEq Spec]
    (api : SpecAPI Spec) (fuel : Nat) (sl : SpecList Spec)
    (lists mutated : List (List Spec)) (concs : List Spec)
    (hc : sl.constraints = some lists)
    (hcc : sl.concreteCache = none)
    (h : concreteFromConstraints api fuel lists none = .ok (concs, mutated)) :
    (∃ sl2, concrete_specsView api fuel sl = .ok (concs, sl2)
        ∧ sl2.constraints = some mutated
        ∧ specs_as_constraints api sl2 = .ok (mutated, sl2))
    ∧ List.Forall₂ (fun cl cl2 => ∃ root, root ∈ cl ∧ api.name root ≠ "" ∧
        cl2 = removeFirst root cl ∧ cl2.length + 1 = cl.length ∧ cl2 ≠ cl) lists mutated
    ∧ List.Forall₂ (fun cl conc => ∃ root s,
        cl.filter (fun c => api.name c != "") = [root]
        ∧ appliedSpec api root (removeFirst root cl) [] = .ok s
        ∧ api.concretized s = .ok conc) lists concs := by
  obtain ⟨h1, h2⟩ := concreteFromConstraints_ok_inv api fuel lists none concs mutated h
  refine ⟨⟨{ sl with constraints := some mutated, concreteCache := some concs },
           ?_, rfl, ?_⟩, h1, h2⟩
  · simp only [concrete_specsView, hcc, specs_as_constraints, hc, exceptBindOk]
    rw [h, exceptBindOk]
  · simp only [specs_as_constraints]

/-- Witness for C9 at a concrete input. -/
theorem spec_list_C9_witness :
    (∃ sl2, concrete_specsView mAPI 2
        { name := "specs", reference := fun _ => none, rawList := [],
          expanded := none, constraints := some [[mparse "zlib", mparse "~shared"]],
          specsCache := none, concreteCache := none } =
        .ok ([⟨["zlib", "~shared"], true⟩], sl2)
      ∧ sl2.constraints = some [[mparse "~shared"]]
      ∧ specs_as_constraints mAPI sl2 = .ok ([[mparse "~shared"]], sl2))
    ∧ List.Forall₂ (fun cl cl2 => ∃ root, root ∈ cl ∧ mAPI.name root ≠ "" ∧
        cl2 = removeFirst root cl ∧ cl2.length + 1 = cl.length ∧ cl2 ≠ cl)
        [[mparse "zlib", mparse "~shared"]] [[mparse "~shared"]]
    ∧ List.Forall₂ (fun cl conc => ∃ root s,
        cl.filter (fun c => mAPI.name c != "") = [root]
        ∧ appliedSpec mAPI root (removeFirst root cl) [] = .ok s
        ∧ mAPI.concretized s = .ok conc)
        [[mparse "zlib", mparse "~shared"]] [⟨["zlib", "~shared"], true⟩] :=
  spec_list_C9_concrete_read_mutates_constraints mAPI 2
    { name := "specs", reference := fun _ => none, rawList := [],
      expanded := none, constraints := some [[mparse "zlib", mparse "~shared"]],
      specsCache := none, concreteCache := none }
    [[mparse "zlib", mparse "~shared"]] [[mparse "~shared"]]
    [⟨["zlib", "~shared"], true⟩] rfl rfl rfl
